import Mathlib

/-!
Shallow embedding of the fold-state synchronization engine of the
`obsidian-sync-folds` plugin (`src/main.ts`, near-duplicate revision
`src/unnamed/part_000`), and proofs about it.

Modelling conventions:
* JSON values are an inductive `Json`; numbers are `Int` (all numeric fields
  of the fold data model are integral line indices / counts; non-integral
  JSON numbers never arise in this system's data).
* A piece of text is represented by its host `JSON.parse` outcome (`Text`):
  the empty string, a non-empty string that is not valid JSON, or a
  non-empty string parsing to a `Json` value.  `JSON.parse` / `JSON.stringify`
  are host primitives; the code never inspects text in any other way.
* JavaScript objects are insertion-ordered association lists.  Property
  assignment on an existing key updates the value in place; assignment on a
  fresh key appends; `delete` removes the entry.
* Property access on parsed values follows strict-mode JS (the sources are
  ES modules, hence strict): a `null` base throws a TypeError, modelled as
  `none`; primitive bases (boolean, number, string) reject property writes;
  strings and arrays expose their index and `length` own properties, and an
  array's stringify-visible state is modelled directly (a hole or a dropped
  non-index property renders exactly as it would serialize).  Declared
  limits of the model: inherited prototype members (a document path named
  `toString`, say) read as `undefined`, and an array `length` assignment is
  modelled only for non-negative integer JSON numbers — values JS would
  coerce (`null`, numeric strings, …) are modelled as throws.  No operation
  studied by a theorem below reaches these two corners.
* The `localStorage` store and the vault adapter's file system are
  association lists from key / path to `Text`; `readFails` / `writeFails`
  model the adapter's fallible read and write primitives.
* `key.startsWith(p)` followed by `key.replace(p, "")` (the first occurrence
  of a prefix is the occurrence at index 0) is modelled by `foldKeySuffix`.
-/

namespace SyncFolds

/-- JSON values; numbers restricted to `Int` (see module docstring). -/
inductive Json : Type where
  | null : Json
  | bool : Bool → Json
  | num : Int → Json
  | str : String → Json
  | arr : List Json → Json
  | obj : List (String × Json) → Json

/-- A piece of text, represented by its `JSON.parse` outcome. -/
inductive Text : Type where
  | empty : Text
  | invalid : Text
  | json : Json → Text

/-- `JSON.parse`: throws (returns `none`) exactly on text that is not valid
JSON; performs no shape validation whatsoever. -/
def decode : Text → Option Json
  | Text.json j => some j
  | _ => none

/-- Does this text fail `JSON.parse` while being non-empty (truthy)?  Such a
store value is the only kind that reaches the logged-and-skipped branch of
the export scan. -/
def isInvalidText : Text → Bool
  | Text.invalid => true
  | _ => false

/-- JavaScript truthiness of a parsed JSON value (`if (x)`). -/
def jsTruthy : Json → Bool
  | Json.null => false
  | Json.bool b => b
  | Json.num n => n != 0
  | Json.str s => s != ""
  | Json.arr _ => true
  | Json.obj _ => true

/-- First-match lookup in an insertion-ordered JS object / store / fs. -/
def objGet {α : Type} : List (String × α) → String → Option α
  | [], _ => none
  | (k, v) :: rest, key => if k = key then some v else objGet rest key

/-- JS property assignment `o[key] = v`: update in place or append. -/
def objSet {α : Type} : List (String × α) → String → α → List (String × α)
  | [], key, v => [(key, v)]
  | (k, w) :: rest, key, v =>
      if k = key then (k, v) :: rest else (k, w) :: objSet rest key v

/-- JS `delete o[key]`. -/
def objDelete {α : Type} (l : List (String × α)) (key : String) :
    List (String × α) :=
  l.filter (fun kv => kv.1 != key)

/-- Canonical array-index reading of a property key: the key is the
canonical decimal numeral of a natural number (`"0"`, or digits with no
leading zero). -/
def arrayIndexOf (s : String) : Option Nat :=
  match s.data with
  | [] => none
  | c :: rest =>
      if c = '0' then (if rest = [] then some 0 else none)
      else if (c :: rest).all Char.isDigit then
        some ((c :: rest).foldl (fun n d => n * 10 + (d.toNat - 48)) 0)
      else none

/-- The index-keyed own enumerable entries of an array value. -/
def enumEntries (l : List Json) : List (String × Json) :=
  l.enum.map fun ic => (toString ic.1, ic.2)

/-- The index-keyed own enumerable entries of a string value (one
single-character string per position; `length` is non-enumerable). -/
def strEntries (s : String) : List (String × Json) :=
  s.data.enum.map fun ic => (toString ic.1, Json.str (String.mk [ic.2]))

/-- Property read `x[key]` on a parsed JSON value: `none` = TypeError
(`null` base); `some none` = `undefined`; `some (some v)` = the property's
value.  Own properties only — inherited prototype members are outside the
model and read as `undefined` (module docstring). -/
def jsonGet : Json → String → Option (Option Json)
  | Json.null, _ => none
  | Json.bool _, _ => some none
  | Json.num _, _ => some none
  | Json.str s, key =>
      if key = "length" then some (some (Json.num s.length))
      else
        match arrayIndexOf key with
        | some i =>
            match s.data.get? i with
            | some c => some (some (Json.str (String.mk [c])))
            | none => some none
        | none => some none
  | Json.arr l, key =>
      if key = "length" then some (some (Json.num l.length))
      else
        match arrayIndexOf key with
        | some i => some (l.get? i)
        | none => some none
  | Json.obj l, key => some (objGet l key)

/-- Strict-mode property write `x[key] = v` on a parsed JSON value, as seen
by the `JSON.stringify` that immediately follows it in the code: `none` =
throw.  A `null` base throws a TypeError; primitive bases throw in strict
mode; arrays honour index writes (holes render as `null`) and `length`
resizing by a non-negative integer number (module docstring), while a
non-index array key adds a property `JSON.stringify` drops; objects update
in place or append. -/
def jsonSet : Json → String → Json → Option Json
  | Json.null, _, _ => none
  | Json.bool _, _, _ => none
  | Json.num _, _, _ => none
  | Json.str _, _, _ => none
  | Json.arr l, key, v =>
      if key = "length" then
        match v with
        | Json.num n =>
            if n < 0 then none
            else some (Json.arr (if n.toNat ≤ l.length then l.take n.toNat
              else l ++ List.replicate (n.toNat - l.length) Json.null))
        | _ => none
      else
        match arrayIndexOf key with
        | some i =>
            if i < l.length then some (Json.arr (l.set i v))
            else some (Json.arr
              (l ++ List.replicate (i - l.length) Json.null ++ [v]))
        | none => some (Json.arr l)
  | Json.obj l, key, v => some (Json.obj (objSet l key v))

/-- Strict-mode `delete x[key]` on a parsed JSON value, as seen by the
following `JSON.stringify`: `none` = throw.  A `null` base throws; booleans
and numbers have no own properties (no-op); a string's index and `length`
properties are non-configurable (strict-mode throw), its other keys no-op;
deleting an in-range array index leaves a hole (rendered `null`), deleting
`length` throws, other array keys no-op; object entries are removed. -/
def jsonDelete : Json → String → Option Json
  | Json.null, _ => none
  | Json.bool b, _ => some (Json.bool b)
  | Json.num n, _ => some (Json.num n)
  | Json.str s, key =>
      if key = "length" then none
      else
        match arrayIndexOf key with
        | some i => if i < s.length then none else some (Json.str s)
        | none => some (Json.str s)
  | Json.arr l, key =>
      if key = "length" then none
      else
        match arrayIndexOf key with
        | some i =>
            if i < l.length then some (Json.arr (l.set i Json.null))
            else some (Json.arr l)
        | none => some (Json.arr l)
  | Json.obj l, key => some (Json.obj (objDelete l key))

/-- `Object.entries(x)` on a parsed JSON value: throws (`none`) on `null`;
otherwise yields the own enumerable properties — `[]` for booleans and
numbers, index→character entries for strings, index→element entries for
arrays, the property list for objects. -/
def jsonEntries : Json → Option (List (String × Json))
  | Json.null => none
  | Json.bool _ => some []
  | Json.num _ => some []
  | Json.str s => some (strEntries s)
  | Json.arr l => some (enumEntries l)
  | Json.obj l => some l

/-- Strip `p` from the front of `s` (as character lists), if present. -/
def dropPre : List Char → List Char → Option (List Char)
  | [], s => some s
  | _ :: _, [] => none
  | c :: cs, d :: ds => if c = d then dropPre cs ds else none

/-- `key.startsWith(p) ? key.replace(p, "") : none`: the document path
suffix of a fold-namespaced key. -/
def foldKeySuffix (p k : String) : Option String :=
  (dropPre p.data k.data).map String.mk

/-- The fold-namespace key prefix `` `${appId}-note-fold-` ``. -/
def foldPre (appId : String) : String := appId ++ "-note-fold-"

/-- `FoldSyncSettings` (`src/main.ts:10`). -/
structure Settings where
  syncFilePath : String
  enableSync : Bool

/-- The host world the plugin acts on: the `localStorage` store, the vault
adapter's files, and the adapter's failure behavior. -/
structure World where
  store : List (String × Text)
  files : List (String × Text)
  readFails : Bool
  writeFails : Bool

/-- The plugin's own mutable state: settings and the shared debounce timer
(payload of the pending `upsertFoldStateForFile` call). -/
structure PluginState where
  settings : Settings
  timer : Option (String × Option Text)

/-- A markdown view: identity plus the path of the file it displays. -/
structure View where
  id : Nat
  path : String

/-- Observable effects of one operation run: `Notice` count, `console.error`
count, whether a `catch` block ran, durable-file writes, `debouncedSyncFile`
invocations, `currentMode.applyFoldInfo` / `previewMode.renderer.applyFoldInfo`
calls, `onMarkdownFold` calls, and `foldManager.save` calls. -/
structure Effects where
  notices : Nat
  errLogs : Nat
  caught : Bool
  writes : List (String × Text)
  scheduled : List (String × Option Text)
  appliedCur : List (Nat × Json)
  appliedPrev : List (Nat × Json)
  folded : List Nat
  fmSaves : List (String × Json)

/-- No observable effects. -/
def noEffects : Effects := ⟨0, 0, false, [], [], [], [], [], []⟩

/-! ### File Synchronizer: `exportFoldsToFile` (`src/main.ts:214`) -/

/-- One iteration of the `localStorage` scan in `exportFoldsToFile`
(`src/main.ts:227-243`): a fold-namespaced key with a truthy value is
`JSON.parse`d into the record under its stripped path (a parse failure is
`console.error`-logged and skipped); everything else is passed over. -/
def exportStep (p : String) (acc : List (String × Json) × Nat)
    (kv : String × Text) : List (String × Json) × Nat :=
  match foldKeySuffix p kv.1 with
  | none => acc
  | some path =>
      match kv.2 with
      | Text.empty => acc
      | Text.invalid => (acc.1, acc.2 + 1)
      | Text.json j => (objSet acc.1 path j, acc.2)

/-- The full `localStorage` scan, in enumeration order; returns the built
record and the number of parse errors logged. -/
def exportScan (p : String) (acc : List (String × Json) × Nat) :
    List (String × Text) → List (String × Json) × Nat
  | [] => acc
  | kv :: rest => exportScan p (exportStep p acc kv) rest

/-- `exportFoldsToFile` (`src/main.ts:214-265`): no-op when sync is disabled;
otherwise rebuilds the whole record from the store and overwrites the
durable file (a rejected write is caught, logged, and surfaced as one
`Notice`). -/
def exportFoldsToFile (appId : String) (s : Settings) (w : World) :
    World × Effects :=
  if s.enableSync = false then (w, noEffects)
  else
    let scan := exportScan (foldPre appId) ([], 0) w.store
    let content := Text.json (Json.obj scan.1)
    if w.writeFails then
      (w, { noEffects with notices := 1, errLogs := scan.2 + 1, caught := true })
    else
      ({ w with files := objSet w.files s.syncFilePath content },
       { noEffects with errLogs := scan.2,
                        writes := [(s.syncFilePath, content)] })

/-! ### File Synchronizer: `upsertFoldStateForFile` (`src/main.ts:267`) -/

/-- Effects of the `catch` block of `upsertFoldStateForFile`
(`src/main.ts:310-313`): one `console.error`, one `Notice`. -/
def upsertCaught : Effects :=
  { noEffects with notices := 1, errLogs := 1, caught := true }

/-- The write-back step of `upsertFoldStateForFile` (`src/main.ts:303-305`). -/
def upsertWriteBack (s : Settings) (w : World) (record : Json) :
    World × Effects :=
  let content := Text.json record
  if w.writeFails then (w, upsertCaught)
  else
    ({ w with files := objSet w.files s.syncFilePath content },
     { noEffects with writes := [(s.syncFilePath, content)] })

/-- The mutation step of `upsertFoldStateForFile` (`src/main.ts:294-301`):
delete the entry on `null`, otherwise `JSON.parse` the value and assign it.
A throw of `JSON.parse`, of the `delete`, or of the assignment (a non-object
record such as `null`) lands in the surrounding `catch`. -/
def upsertApply (s : Settings) (w : World) (path : String)
    (value : Option Text) (record : Json) : World × Effects :=
  match value with
  | none =>
      match jsonDelete record path with
      | none => (w, upsertCaught)
      | some r2 => upsertWriteBack s w r2
  | some t =>
      match decode t with
      | none => (w, upsertCaught)
      | some v =>
          match jsonSet record path v with
          | none => (w, upsertCaught)
          | some r2 => upsertWriteBack s w r2

/-- `upsertFoldStateForFile` (`src/main.ts:267-314`): no-op when sync is
disabled; reads the durable file if it exists (absence means the empty
record), decodes it, applies one mutation, writes the result back.  Any
adapter failure or parse failure lands in the single `catch`. -/
def upsertFoldStateForFile (s : Settings) (w : World) (path : String)
    (value : Option Text) : World × Effects :=
  if s.enableSync = false then (w, noEffects)
  else
    match objGet w.files s.syncFilePath with
    | none => upsertApply s w path value (Json.obj [])
    | some t =>
        if w.readFails then (w, upsertCaught)
        else
          match decode t with
          | none => (w, upsertCaught)
          | some record => upsertApply s w path value record

/-! ### Store Interceptor and import: `interceptLocalStorage`,
`importFoldsFromFile` (`src/main.ts:131`, `src/main.ts:316`) -/

/-- The intercepted `localStorage.setItem` (`src/main.ts:146-155`), as
installed by `interceptLocalStorage` when the plugin loaded with sync
enabled: perform the original write, then — whenever the key is
fold-namespaced, with no check of `enableSync` — invoke `debouncedSyncFile`,
which clears any pending timer and arms a new one holding this (path, value).
Returns the new plugin state, the new store, and the `debouncedSyncFile`
invocations made. -/
def wrappedSetItem (p : String) (ps : PluginState)
    (store : List (String × Text)) (key : String) (value : Text) :
    PluginState × List (String × Text) × List (String × Option Text) :=
  let store2 := objSet store key value
  match foldKeySuffix p key with
  | some path =>
      ({ ps with timer := some (path, some value) }, store2,
       [(path, some value)])
  | none => (ps, store2, [])

/-- The import loop (`src/main.ts:346-350`): one intercepted
`localStorage.setItem` of `` `${appId}-note-fold-${filePath}` `` ↦
`JSON.stringify(foldData)` per record entry. -/
def importLoop (p : String) :
    List (String × Json) → PluginState → List (String × Text) →
    PluginState × List (String × Text) × List (String × Option Text)
  | [], ps, store => (ps, store, [])
  | (path, v) :: rest, ps, store =>
      let r1 := wrappedSetItem p ps store (p ++ path) (Text.json v)
      let r2 := importLoop p rest r1.1 r1.2.1
      (r2.1, r2.2.1, r1.2.2 ++ r2.2.2)

/-- Effects of the `catch` block of `importFoldsFromFile`
(`src/main.ts:355-358`): one `console.error`, one `Notice`. -/
def importCaught : Effects :=
  { noEffects with notices := 1, errLogs := 1, caught := true }

/-- `importFoldsFromFile` (`src/main.ts:316-359`): silently returns when the
durable file is absent; reads and `JSON.parse`s it (failures land in the
`catch`); then saves `enableSync`, clears it (line 342), enumerates the
record with `Object.entries` (line 346) — which throws *after* the clear
when the record is `null`, so that the `catch` (line 355) skips the restore
(line 353) and the flag stays cleared — writes every entry into the store
through the (intercepted) `setItem`, and restores the saved flag. -/
def importFoldsFromFile (appId : String) (ps : PluginState) (w : World) :
    PluginState × World × Effects :=
  match objGet w.files ps.settings.syncFilePath with
  | none => (ps, w, noEffects)
  | some t =>
      if w.readFails then (ps, w, importCaught)
      else
        match decode t with
        | none => (ps, w, importCaught)
        | some record =>
            let saved := ps.settings.enableSync
            let ps1 : PluginState :=
              { ps with settings := { ps.settings with enableSync := false } }
            match jsonEntries record with
            | none => (ps1, w, importCaught)
            | some entries =>
                let r := importLoop (foldPre appId) entries ps1 w.store
                let ps2 : PluginState :=
                  { r.1 with settings :=
                      { r.1.settings with enableSync := saved } }
                (ps2, { w with store := r.2.1 },
                 { noEffects with scheduled := r.2.2 })

/-- Expiry of the shared debounce timer (`src/main.ts:204-211`): run
`upsertFoldStateForFile` with the held (path, value) against the settings as
they are *now*, and clear the timer. -/
def fireTimer (ps : PluginState) (w : World) : PluginState × World × Effects :=
  match ps.timer with
  | none => (ps, w, noEffects)
  | some (path, value) =>
      let r := upsertFoldStateForFile ps.settings w path value
      ({ ps with timer := none }, r.1, r.2)

/-! ### Apply-on-Open Coordinator: `applyFoldStateForFile`
(`src/main.ts:361`) -/

/-- Effects of the `catch` block of `applyFoldStateForFile`
(`src/main.ts:477-480`): one `console.error`, *no* `Notice`. -/
def applyCaught : Effects := { noEffects with errLogs := 1, caught := true }

/-- `applyFoldStateForFile` (`src/main.ts:361-481`): no-op when sync is
disabled, the durable file is absent, the record has no truthy entry for the
path, or the path does not resolve to a `TFile` in the vault; the property
read `foldStates[filePath]` (line 402) throws into the `catch` when the
record is `null`.  When the path
is open in some markdown view the code first dereferences
`getActiveViewOfType(MarkdownView)` (`src/main.ts:434-435`) — a `TypeError`
caught by the surrounding `try` when there is none — then applies the
descriptor to the first matching view via `currentMode.applyFoldInfo` and
twice via `previewMode.renderer.applyFoldInfo`, and calls that view's
`onMarkdownFold`.  When no view shows the path, `foldManager.save` is used. -/
def applyFoldStateForFile (s : Settings) (w : World) (path : String)
    (vault : List String) (views : List View) (activeMd : Option View) :
    World × Effects :=
  if s.enableSync = false then (w, noEffects)
  else
    match objGet w.files s.syncFilePath with
    | none => (w, noEffects)
    | some t =>
        if w.readFails then (w, applyCaught)
        else
          match decode t with
          | none => (w, applyCaught)
          | some record =>
              match jsonGet record path with
              | none => (w, applyCaught)
              | some none => (w, noEffects)
              | some (some d) =>
                  if jsTruthy d = false then (w, noEffects)
                  else if vault.contains path = false then (w, noEffects)
                  else
                    match views.filter (fun v => v.path == path) with
                    | [] => (w, { noEffects with fmSaves := [(path, d)] })
                    | v0 :: _ =>
                        match activeMd with
                        | none => (w, applyCaught)
                        | some _ =>
                            (w, { noEffects with
                                  appliedCur := [(v0.id, d)],
                                  appliedPrev := [(v0.id, d), (v0.id, d)],
                                  folded := [v0.id] })

/-! ### Sync Scheduler: timed semantics of `debouncedSyncFile`
(`src/main.ts:195-212`) -/

/-- A change notification reaching `debouncedSyncFile`: arrival time in
milliseconds, document path, and new value (`none` for a removal). -/
abbrev Ev : Type := Nat × String × Option Text

/-- Timed run of the shared debounce timer over a notification trace.
State: the pending notification, if any (the timer armed at its arrival
time fires 500 ms later).  A new notification first lets an already-expired
pending timer's write execute, then cancels/re-arms the timer with itself
(`window.clearTimeout` + `window.setTimeout`, `src/main.ts:196-211`).
Returns the final pending notification and the writes executed during the
trace, in order. -/
def schedExec : Option Ev → List Ev → Option Ev × List (String × Option Text)
  | pending, [] => (pending, [])
  | none, e :: rest => schedExec (some e) rest
  | some q, e :: rest =>
      if q.1 + 500 ≤ e.1 then
        let r := schedExec (some e) rest
        (r.1, q.2 :: r.2)
      else schedExec (some e) rest

/-- Writes of a completed run: the writes during the trace plus the final
pending timer's write once it expires undisturbed. -/
def schedWrites (evs : List Ev) : List (String × Option Text) :=
  match schedExec none evs with
  | (some q, ws) => ws ++ [q.2]
  | (none, ws) => ws

/-! ### Fold Record Codec: the typed data model (`src/main.ts:20-32`) and
its JSON shape -/

/-- `Fold` (`src/main.ts:20-23`). -/
structure Fold where
  «from» : Int
  «to» : Int

/-- `FoldedProperties` (`src/main.ts:25-28`). -/
structure FoldedProperties where
  folds : List Fold
  lines : Int

/-- `FoldStateData` (`src/main.ts:30-32`): an insertion-ordered mapping from
document path to fold descriptor. -/
abbrev FoldStateData : Type := List (String × FoldedProperties)

/-- `JSON.stringify` of a `Fold` (canonical field order). -/
def Fold.toJson (f : Fold) : Json :=
  Json.obj [("from", Json.num f.«from»), ("to", Json.num f.«to»)]

/-- `JSON.stringify` of a `FoldedProperties` (canonical field order). -/
def FoldedProperties.toJson (fp : FoldedProperties) : Json :=
  Json.obj [("folds", Json.arr (fp.folds.map Fold.toJson)),
            ("lines", Json.num fp.lines)]

/-- `JSON.stringify` of a `FoldStateData` value, as a JSON value. -/
def foldStateDataToJson (d : FoldStateData) : Json :=
  Json.obj (d.map fun kv => (kv.1, FoldedProperties.toJson kv.2))

/-- `encode`: `JSON.stringify` of a `FoldStateData` value
(`src/main.ts:252`, `src/main.ts:304`), as text. -/
def encodeFoldStateData (d : FoldStateData) : Text :=
  Text.json (foldStateDataToJson d)

/-- Read a `Fold` back from its canonical JSON form. -/
def foldOfJson : Json → Option Fold
  | Json.obj [("from", Json.num a), ("to", Json.num b)] => some ⟨a, b⟩
  | _ => none

/-- Read a list of `Fold`s back from canonical JSON forms. -/
def foldListOfJson : List Json → Option (List Fold)
  | [] => some []
  | j :: rest =>
      match foldOfJson j, foldListOfJson rest with
      | some f, some fs => some (f :: fs)
      | _, _ => none

/-- Read a `FoldedProperties` back from its canonical JSON form. -/
def propsOfJson : Json → Option FoldedProperties
  | Json.obj [("folds", Json.arr fjs), ("lines", Json.num n)] =>
      match foldListOfJson fjs with
      | some fs => some ⟨fs, n⟩
      | none => none
  | _ => none

/-- Read record entries back from canonical JSON forms. -/
def entriesOfJson : List (String × Json) → Option FoldStateData
  | [] => some []
  | (k, j) :: rest =>
      match propsOfJson j, entriesOfJson rest with
      | some fp, some r => some ((k, fp) :: r)
      | _, _ => none

/-- Read a `FoldStateData` back from its canonical JSON form. -/
def foldStateDataOfJson : Json → Option FoldStateData
  | Json.obj l => entriesOfJson l
  | _ => none

/-- Is this JSON value shaped as a `Fold`? -/
def isFoldJson (j : Json) : Bool :=
  match j with
  | Json.obj l =>
      (match objGet l "from" with
       | some (Json.num _) => true
       | _ => false) &&
      (match objGet l "to" with
       | some (Json.num _) => true
       | _ => false)
  | _ => false

/-- Is this JSON value shaped as a `FoldedProperties` descriptor? -/
def isDescriptorJson (j : Json) : Bool :=
  match j with
  | Json.obj l =>
      (match objGet l "folds" with
       | some (Json.arr fs) => fs.all isFoldJson
       | _ => false) &&
      (match objGet l "lines" with
       | some (Json.num _) => true
       | _ => false)
  | _ => false

/-- Is this JSON value shaped as a path → `FoldedProperties` mapping? -/
def isFoldRecordJson (j : Json) : Bool :=
  match j with
  | Json.obj l => l.all fun kv => isDescriptorJson kv.2
  | _ => false

/-- A shared concrete fold descriptor used by concrete evaluations. -/
def sampleDesc : Json :=
  Json.obj [("folds", Json.arr [Json.obj [("from", Json.num 1),
                                          ("to", Json.num 3)]]),
            ("lines", Json.num 10)]

/-! ### Basic lemmas on the JS object model -/

theorem objGet_objSet_self {α : Type} (l : List (String × α)) (k : String)
    (v : α) : objGet (objSet l k v) k = some v := by
  induction l with
  | nil => simp [objSet, objGet]
  | cons hd tl ih =>
      obtain ⟨k0, v0⟩ := hd
      by_cases h : k0 = k
      · simp [objSet, h, objGet]
      · simp [objSet, h, objGet, ih]

theorem objGet_objSet_ne {α : Type} (l : List (String × α)) (k q : String)
    (v : α) (h : q ≠ k) : objGet (objSet l k v) q = objGet l q := by
  have h' : k ≠ q := Ne.symm h
  induction l with
  | nil => simp [objSet, objGet, h']
  | cons hd tl ih =>
      obtain ⟨k0, v0⟩ := hd
      by_cases h0 : k0 = k
      · subst h0
        simp [objSet, objGet, h']
      · simp [objSet, h0, objGet, ih]

theorem objGet_objDelete_self {α : Type} (l : List (String × α))
    (k : String) : objGet (objDelete l k) k = none := by
  induction l with
  | nil => rfl
  | cons hd tl ih =>
      obtain ⟨k0, v0⟩ := hd
      by_cases h : k0 = k
      · simpa [objDelete, List.filter_cons, h] using ih
      · simpa [objDelete, List.filter_cons, h, objGet] using ih

theorem objGet_objDelete_ne {α : Type} (l : List (String × α))
    (k q : String) (h : q ≠ k) : objGet (objDelete l k) q = objGet l q := by
  induction l with
  | nil => rfl
  | cons hd tl ih =>
      obtain ⟨k0, v0⟩ := hd
      simp only [objDelete] at ih ⊢
      by_cases h0 : k0 = k
      · subst h0
        simp [List.filter_cons, objGet, Ne.symm h, ih]
      · simp [List.filter_cons, h0, objGet, ih]

/-! ### Lemmas on prefix stripping -/

theorem dropPre_append (p s : List Char) : dropPre p (p ++ s) = some s := by
  induction p with
  | nil => simp [dropPre]
  | cons c cs ih => simp [dropPre, ih]

theorem dropPre_eq_some {p k s : List Char} (h : dropPre p k = some s) :
    k = p ++ s := by
  induction p generalizing k with
  | nil => simp [dropPre] at h; simp [h]
  | cons c cs ih =>
      match k with
      | [] => simp [dropPre] at h
      | d :: ds =>
          simp only [dropPre] at h
          split at h
          · next hc => subst hc; simpa using ih h
          · exact absurd h (by simp)

theorem str_data_append (a b : String) : (a ++ b).data = a.data ++ b.data := by
  obtain ⟨da⟩ := a; obtain ⟨db⟩ := b; rfl

theorem foldKeySuffix_append (p s : String) :
    foldKeySuffix p (p ++ s) = some s := by
  obtain ⟨ds⟩ := s
  simp [foldKeySuffix, str_data_append, dropPre_append]

theorem foldKeySuffix_eq_some {p k s : String}
    (h : foldKeySuffix p k = some s) : k = p ++ s := by
  simp only [foldKeySuffix, Option.map_eq_some'] at h
  obtain ⟨ds, hd, hs⟩ := h
  have hk : k.data = p.data ++ ds := dropPre_eq_some hd
  subst hs
  obtain ⟨dk⟩ := k
  obtain ⟨dp⟩ := p
  exact congrArg String.mk hk

/-! ### Shape lemmas on the operations' effects -/

theorem importLoop_settings (p : String) (entries : List (String × Json))
    (ps : PluginState) (store : List (String × Text)) :
    (importLoop p entries ps store).1.settings = ps.settings := by
  induction entries generalizing ps store with
  | nil => rfl
  | cons e rest ih =>
      obtain ⟨path, v⟩ := e
      simp only [importLoop]
      rw [ih]
      simp only [wrappedSetItem]
      split <;> rfl

theorem upsert_effects_shape (s : Settings) (w : World) (p : String)
    (v : Option Text) :
    (upsertFoldStateForFile s w p v).2 = noEffects ∨
    (upsertFoldStateForFile s w p v).2 = upsertCaught ∨
    ∃ c, (upsertFoldStateForFile s w p v).2 =
      { noEffects with writes := [(s.syncFilePath, c)] } := by
  unfold upsertFoldStateForFile upsertApply upsertWriteBack
  repeat' split
  all_goals
    first
    | exact Or.inl rfl
    | exact Or.inr (Or.inl rfl)
    | exact Or.inr (Or.inr ⟨_, rfl⟩)

theorem apply_effects_shape (s : Settings) (w : World) (path : String)
    (vault : List String) (views : List View) (activeMd : Option View) :
    (applyFoldStateForFile s w path vault views activeMd).2 = noEffects ∨
    (applyFoldStateForFile s w path vault views activeMd).2 = applyCaught ∨
    (∃ d, (applyFoldStateForFile s w path vault views activeMd).2 =
      { noEffects with fmSaves := [(path, d)] }) ∨
    ∃ i d, (applyFoldStateForFile s w path vault views activeMd).2 =
      { noEffects with appliedCur := [(i, d)],
                       appliedPrev := [(i, d), (i, d)], folded := [i] } := by
  unfold applyFoldStateForFile
  repeat' split
  all_goals
    first
    | exact Or.inl rfl
    | exact Or.inr (Or.inl rfl)
    | exact Or.inr (Or.inr (Or.inl ⟨_, rfl⟩))
    | exact Or.inr (Or.inr (Or.inr ⟨_, _, rfl⟩))

theorem import_effects_shape (appId : String) (ps : PluginState) (w : World) :
    (importFoldsFromFile appId ps w).2.2 = noEffects ∨
    (importFoldsFromFile appId ps w).2.2 = importCaught ∨
    ∃ sch, (importFoldsFromFile appId ps w).2.2 =
      { noEffects with scheduled := sch } := by
  unfold importFoldsFromFile
  repeat' split
  all_goals
    first
    | exact Or.inl rfl
    | exact Or.inr (Or.inl rfl)
    | exact Or.inr (Or.inr ⟨_, rfl⟩)

/-! ### Lemmas on the timed debounce semantics -/

theorem schedExec_fst (evs : List Ev) (q : Ev) :
    (schedExec (some q) evs).1 = (q :: evs).getLast? := by
  induction evs generalizing q with
  | nil => simp [schedExec]
  | cons e rest ih =>
      rw [List.getLast?_cons_cons]
      simp only [schedExec]
      split
      · simpa using ih e
      · exact ih e

theorem schedExec_none_fst (evs : List Ev) :
    (schedExec none evs).1 = evs.getLast? := by
  cases evs with
  | nil => rfl
  | cons e rest => exact schedExec_fst rest e

theorem schedExec_snd_small (evs : List Ev) (q : Ev)
    (h : List.Chain' (fun a b : Ev => a.1 < b.1 ∧ b.1 < a.1 + 500)
      (q :: evs)) :
    (schedExec (some q) evs).2 = [] := by
  induction evs generalizing q with
  | nil => rfl
  | cons e rest ih =>
      have hqe : e.1 < q.1 + 500 := (List.chain'_cons.mp h).1.2
      have ht := (List.chain'_cons.mp h).2
      simp only [schedExec]
      rw [if_neg (by omega)]
      exact ih e ht

theorem schedExec_snd_big (evs : List Ev) (q : Ev)
    (h : List.Chain' (fun a b : Ev => a.1 + 500 < b.1) (q :: evs)) :
    (schedExec (some q) evs).2 =
      ((q :: evs).dropLast).map (fun e => e.2) := by
  induction evs generalizing q with
  | nil => rfl
  | cons e rest ih =>
      have hqe : q.1 + 500 < e.1 := (List.chain'_cons.mp h).1
      have ht := (List.chain'_cons.mp h).2
      simp only [schedExec]
      rw [if_pos (by omega)]
      simp only
      rw [ih e ht]
      rfl

theorem schedWrites_small (evs : List Ev) (e0 : Ev)
    (hlast : evs.getLast? = some e0)
    (h : List.Chain' (fun a b : Ev => a.1 < b.1 ∧ b.1 < a.1 + 500) evs) :
    schedWrites evs = [e0.2] := by
  cases evs with
  | nil => simp at hlast
  | cons e rest =>
      have hs : schedExec none (e :: rest) = (some e0, []) := by
        rw [show schedExec none (e :: rest)
              = ((schedExec (some e) rest).1, (schedExec (some e) rest).2)
            from rfl,
           schedExec_fst, schedExec_snd_small rest e h, hlast]
      unfold schedWrites
      rw [hs]
      rfl

theorem schedWrites_big (evs : List Ev) (e0 : Ev)
    (hlast : evs.getLast? = some e0)
    (h : List.Chain' (fun a b : Ev => a.1 + 500 < b.1) evs) :
    schedWrites evs = evs.map (fun e => e.2) := by
  cases evs with
  | nil => simp at hlast
  | cons e rest =>
      have hne : (e :: rest) ≠ [] := by simp
      have hg : some e0 = some ((e :: rest).getLast hne) := by
        rw [← hlast]; exact List.getLast?_eq_getLast _ hne
      have hg' := Option.some.inj hg
      have hs : schedExec none (e :: rest)
          = ((e :: rest).getLast?,
             ((e :: rest).dropLast).map (fun x => x.2)) := by
        rw [show schedExec none (e :: rest)
              = ((schedExec (some e) rest).1, (schedExec (some e) rest).2)
            from rfl,
           schedExec_fst, schedExec_snd_big rest e h]
      unfold schedWrites
      rw [hs, hlast]
      simp only
      rw [hg',
          show [((e :: rest).getLast hne).2]
              = List.map (fun x : Ev => x.2) [(e :: rest).getLast hne] from rfl,
          ← List.map_append, List.dropLast_append_getLast hne]

/-! ### Lemmas on the export scan -/

theorem exportScan_snd (p : String) (store : List (String × Text))
    (acc : List (String × Json)) (n : Nat) :
    (exportScan p (acc, n) store).2 =
      n + (store.filter (fun kv =>
        (foldKeySuffix p kv.1).isSome && isInvalidText kv.2)).length := by
  induction store generalizing acc n with
  | nil => simp [exportScan]
  | cons kv rest ih =>
      obtain ⟨k, t⟩ := kv
      simp only [exportScan, exportStep, List.filter_cons]
      cases hks : foldKeySuffix p k with
      | none => simp [hks, ih]
      | some path =>
          cases t with
          | empty => simp [hks, isInvalidText, ih]
          | invalid => simp [hks, isInvalidText, ih]; omega
          | json j => simp [hks, isInvalidText, ih]

theorem exportScan_get_skip (p : String) (store : List (String × Text))
    (acc : List (String × Json)) (n : Nat) (q : String)
    (h : ∀ kv ∈ store, foldKeySuffix p kv.1 = some q →
      ∀ v, kv.2 ≠ Text.json v) :
    objGet (exportScan p (acc, n) store).1 q = objGet acc q := by
  induction store generalizing acc n with
  | nil => rfl
  | cons kv rest ih =>
      obtain ⟨k, t⟩ := kv
      have hrest : ∀ kv ∈ rest, foldKeySuffix p kv.1 = some q →
          ∀ v, kv.2 ≠ Text.json v :=
        fun kv hm => h kv (List.mem_cons_of_mem _ hm)
      simp only [exportScan, exportStep]
      cases hks : foldKeySuffix p k with
      | none => simp only [hks]; exact ih _ _ hrest
      | some path =>
          simp only [hks]
          cases t with
          | empty => exact ih _ _ hrest
          | invalid => exact ih _ _ hrest
          | json j =>
              have hpq : path ≠ q := by
                intro hpq; subst hpq
                exact h (k, Text.json j) (List.mem_cons_self _ _) hks j rfl
              rw [ih _ _ hrest]
              exact objGet_objSet_ne _ _ _ _ (Ne.symm hpq)

theorem exportScan_get_found (p : String) (store : List (String × Text))
    (acc : List (String × Json)) (n : Nat) (q : String) (v : Json)
    (hnd : (store.map Prod.fst).Nodup)
    (hmem : (p ++ q, Text.json v) ∈ store) :
    objGet (exportScan p (acc, n) store).1 q = some v := by
  induction store generalizing acc n with
  | nil => simp at hmem
  | cons kv rest ih =>
      obtain ⟨k, t⟩ := kv
      have hnd' : (rest.map Prod.fst).Nodup :=
        (List.nodup_cons.mp (by simpa using hnd)).2
      rcases List.mem_cons.mp hmem with heq | hmem'
      · have hk : p ++ q = k := congrArg Prod.fst heq
        have ht : Text.json v = t := congrArg Prod.snd heq
        subst hk
        subst ht
        have hks : foldKeySuffix p (p ++ q) = some q := foldKeySuffix_append p q
        have hnotin : (p ++ q) ∉ rest.map Prod.fst :=
          (List.nodup_cons.mp (by simpa using hnd)).1
        simp only [exportScan, exportStep, hks]
        rw [exportScan_get_skip p rest (objSet acc q v) n q ?hskip]
        · exact objGet_objSet_self _ _ _
        case hskip =>
          intro kv hm hsuf v' hv'
          exact hnotin (by
            have : kv.1 = p ++ q := foldKeySuffix_eq_some hsuf
            rw [← this]
            exact List.mem_map_of_mem Prod.fst hm)
      · simp only [exportScan]
        rcases hstep : exportStep p (acc, n) (k, t) with ⟨a2, n2⟩
        exact ih a2 n2 hnd' hmem'

/-! ### Lemmas on the typed codec -/

theorem foldOfJson_toJson (f : Fold) : foldOfJson (Fold.toJson f) = some f :=
  rfl

theorem foldListOfJson_map (fs : List Fold) :
    foldListOfJson (fs.map Fold.toJson) = some fs := by
  induction fs with
  | nil => rfl
  | cons f rest ih => simp [foldListOfJson, foldOfJson_toJson, ih]

theorem propsOfJson_toJson (fp : FoldedProperties) :
    propsOfJson (FoldedProperties.toJson fp) = some fp := by
  obtain ⟨fs, n⟩ := fp
  simp [FoldedProperties.toJson, propsOfJson, foldListOfJson_map]

theorem entriesOfJson_map (d : FoldStateData) :
    entriesOfJson (d.map fun kv => (kv.1, FoldedProperties.toJson kv.2))
      = some d := by
  induction d with
  | nil => rfl
  | cons kv rest ih =>
      obtain ⟨k, fp⟩ := kv
      simp [entriesOfJson, propsOfJson_toJson, ih]

theorem foldOfJson_inv {j : Json} {f : Fold} (h : foldOfJson j = some f) :
    Fold.toJson f = j := by
  unfold foldOfJson at h
  split at h
  · next a b =>
      obtain rfl : f = ⟨a, b⟩ := (Option.some.inj h).symm
      rfl
  · exact absurd h (by simp)

theorem foldListOfJson_inv {l : List Json} {fs : List Fold}
    (h : foldListOfJson l = some fs) : fs.map Fold.toJson = l := by
  induction l generalizing fs with
  | nil =>
      obtain rfl : fs = [] := by
        simpa [foldListOfJson] using h.symm
      rfl
  | cons j rest ih =>
      simp only [foldListOfJson] at h
      split at h
      · next f fs' hf hrest =>
          obtain rfl : fs = f :: fs' := (Option.some.inj h).symm
          simp [List.map_cons, foldOfJson_inv hf, ih hrest]
      · exact absurd h (by simp)

theorem propsOfJson_inv {j : Json} {fp : FoldedProperties}
    (h : propsOfJson j = some fp) : FoldedProperties.toJson fp = j := by
  unfold propsOfJson at h
  split at h
  · next fjs n =>
      revert h
      split
      · next fs hfs =>
          intro h
          obtain rfl : fp = ⟨fs, n⟩ := (Option.some.inj h).symm
          simp [FoldedProperties.toJson, foldListOfJson_inv hfs]
      · intro h; exact absurd h (by simp)
  · exact absurd h (by simp)

theorem entriesOfJson_inv {l : List (String × Json)} {d : FoldStateData}
    (h : entriesOfJson l = some d) :
    d.map (fun kv => (kv.1, FoldedProperties.toJson kv.2)) = l := by
  induction l generalizing d with
  | nil =>
      obtain rfl : d = [] := by
        simpa [entriesOfJson] using h.symm
      rfl
  | cons kv rest ih =>
      obtain ⟨k, j⟩ := kv
      simp only [entriesOfJson] at h
      split at h
      · next fp r hfp hr =>
          obtain rfl : d = (k, fp) :: r := (Option.some.inj h).symm
          simp [List.map_cons, propsOfJson_inv hfp, ih hr]
      · exact absurd h (by simp)

/-! ### The claims -/

/-- C1: the claim states that during `importFoldsFromFile` no durable-record
write is scheduled or later executed as a side effect of the import's own
store writes, because change detection is suppressed by clearing the
sync-enabled flag.  The code violates this: the intercepted `setItem` and
`debouncedSyncFile` never consult `enableSync`, so each import write re-arms
the shared debounce timer; the flag is restored before the timer can fire,
so when it does fire, `upsertFoldStateForFile` runs with sync enabled and
performs a durable write.  Concretely: with sync enabled, a durable record
`{"a.md": …}` and an empty store, running the import leaves a pending timer
holding `a.md`, the flag already restored, and letting the timer expire
produces a durable-file write. -/
theorem c1_import_feedback_write :
    (importFoldsFromFile "app" ⟨⟨"sync.json", true⟩, none⟩
        ⟨[], [("sync.json", Text.json (Json.obj [("a.md", sampleDesc)]))],
         false, false⟩).1.timer
      = some ("a.md", some (Text.json sampleDesc)) ∧
    (importFoldsFromFile "app" ⟨⟨"sync.json", true⟩, none⟩
        ⟨[], [("sync.json", Text.json (Json.obj [("a.md", sampleDesc)]))],
         false, false⟩).1.settings.enableSync = true ∧
    (fireTimer
        (importFoldsFromFile "app" ⟨⟨"sync.json", true⟩, none⟩
          ⟨[], [("sync.json", Text.json (Json.obj [("a.md", sampleDesc)]))],
           false, false⟩).1
        (importFoldsFromFile "app" ⟨⟨"sync.json", true⟩, none⟩
          ⟨[], [("sync.json", Text.json (Json.obj [("a.md", sampleDesc)]))],
           false, false⟩).2.1).2.2.writes
      = [("sync.json", Text.json (Json.obj [("a.md", sampleDesc)]))] :=
  ⟨rfl, rfl, rfl⟩

/-- C6: the claim states that on activation with sync enabled, a record
entry for the path, and the document open in a live markdown view, the
stored descriptor is applied to that view and its `onMarkdownFold` is
triggered.  The code violates this when no markdown view is *active*: the
leftover debug line `console.log(t.currentMode)` (`src/main.ts:434-435`)
dereferences `getActiveViewOfType(MarkdownView)`, which is `null` then, so a
`TypeError` is thrown and caught and nothing is applied.  Concretely: with
the document open in view 1 but no active markdown view, the run only logs a
caught error and applies nothing; with any active markdown view (here one
showing a different file), the descriptor is applied to view 1 and view 1's
`onMarkdownFold` fires, as the claim describes. -/
theorem c6_apply_requires_active_view :
    ((applyFoldStateForFile ⟨"sync.json", true⟩
        ⟨[], [("sync.json", Text.json (Json.obj [("a.md", sampleDesc)]))],
         false, false⟩
        "a.md" ["a.md"] [⟨1, "a.md"⟩] none).2.appliedCur = [] ∧
     (applyFoldStateForFile ⟨"sync.json", true⟩
        ⟨[], [("sync.json", Text.json (Json.obj [("a.md", sampleDesc)]))],
         false, false⟩
        "a.md" ["a.md"] [⟨1, "a.md"⟩] none).2.folded = [] ∧
     (applyFoldStateForFile ⟨"sync.json", true⟩
        ⟨[], [("sync.json", Text.json (Json.obj [("a.md", sampleDesc)]))],
         false, false⟩
        "a.md" ["a.md"] [⟨1, "a.md"⟩] none).2.caught = true) ∧
    ((applyFoldStateForFile ⟨"sync.json", true⟩
        ⟨[], [("sync.json", Text.json (Json.obj [("a.md", sampleDesc)]))],
         false, false⟩
        "a.md" ["a.md"] [⟨1, "a.md"⟩] (some ⟨2, "b.md"⟩)).2.appliedCur
        = [(1, sampleDesc)] ∧
     (applyFoldStateForFile ⟨"sync.json", true⟩
        ⟨[], [("sync.json", Text.json (Json.obj [("a.md", sampleDesc)]))],
         false, false⟩
        "a.md" ["a.md"] [⟨1, "a.md"⟩] (some ⟨2, "b.md"⟩)).2.folded = [1]) :=
  ⟨⟨rfl, rfl, rfl⟩, ⟨rfl, rfl⟩⟩

/-- C3: when qualifying change notifications for multiple distinct paths
arrive within one 500 ms quiescence window, the single shared timer holds
only the most recent notification at every point (first conjunct, with
`evs.getLast?` the most recent), the one flush upserts the last-notified
path and value (second conjunct), and an earlier path distinct from the last
one gets no durable write from this window (third conjunct). -/
theorem c3_shared_timer_keeps_last_only (evs : List Ev) (e0 : Ev)
    (hlast : evs.getLast? = some e0)
    (hwin : List.Chain' (fun a b : Ev => a.1 < b.1 ∧ b.1 < a.1 + 500) evs) :
    (schedExec none evs).1 = some e0 ∧
    schedWrites evs = [e0.2] ∧
    ∀ e ∈ evs, e.2.1 ≠ e0.2.1 → ∀ x ∈ schedWrites evs, x.1 ≠ e.2.1 := by
  refine ⟨?_, schedWrites_small evs e0 hlast hwin, ?_⟩
  · rw [schedExec_none_fst, hlast]
  · intro e _ hne x hx
    rw [schedWrites_small evs e0 hlast hwin] at hx
    simp only [List.mem_singleton] at hx
    rw [hx]
    exact Ne.symm hne

/-- Witness for C3: three distinct-path notifications at 0, 100, 200 ms —
the final pending timer holds the 200 ms notification and the only flush is
for path `c.md`. -/
theorem c3_shared_timer_keeps_last_only_witness :
    (schedExec none
        [(0, "a.md", none), (100, "b.md", none),
         (200, "c.md", some (Text.json sampleDesc))]).1
      = some (200, "c.md", some (Text.json sampleDesc)) ∧
    schedWrites
        [(0, "a.md", none), (100, "b.md", none),
         (200, "c.md", some (Text.json sampleDesc))]
      = [("c.md", some (Text.json sampleDesc))] := by
  have h := c3_shared_timer_keeps_last_only
    [(0, "a.md", none), (100, "b.md", none),
     (200, "c.md", some (Text.json sampleDesc))]
    (200, "c.md", some (Text.json sampleDesc)) rfl
    (by simp [List.chain'_cons])
  exact ⟨h.1, h.2.1⟩

/-- C5: debounce coalescing — when all consecutive gaps are under the 500 ms
window, exactly one durable write executes, carrying the last notification;
when all gaps exceed the window, every notification produces its own write,
N in total. -/
theorem c5_debounce_coalescing (evs : List Ev) (e0 : Ev)
    (hlast : evs.getLast? = some e0) :
    (List.Chain' (fun a b : Ev => a.1 < b.1 ∧ b.1 < a.1 + 500) evs →
      schedWrites evs = [e0.2]) ∧
    (List.Chain' (fun a b : Ev => a.1 + 500 < b.1) evs →
      schedWrites evs = evs.map (fun e => e.2) ∧
      (schedWrites evs).length = evs.length) := by
  refine ⟨fun h => schedWrites_small evs e0 hlast h, fun h => ?_⟩
  have hb := schedWrites_big evs e0 hlast h
  exact ⟨hb, by rw [hb, List.length_map]⟩

/-- Witness for C5: two notifications 100 ms apart coalesce to one write;
two notifications 601 ms apart produce two writes. -/
theorem c5_debounce_coalescing_witness :
    schedWrites [(0, "a.md", none), (100, "b.md", none)]
      = [("b.md", none)] ∧
    schedWrites [(0, "a.md", none), (601, "b.md", none)]
      = [("a.md", none), ("b.md", none)] := by
  have h1 := (c5_debounce_coalescing [(0, "a.md", none), (100, "b.md", none)]
    (100, "b.md", none) rfl).1 (by simp [List.chain'_cons])
  have h2 := (c5_debounce_coalescing [(0, "a.md", none), (601, "b.md", none)]
    (601, "b.md", none) rfl).2 (by simp [List.chain'_cons])
  exact ⟨h1, h2.1⟩

theorem upsert_run (s : Settings) (w : World) (p : String)
    (value : Option Text) (l : List (String × Json))
    (hen : s.enableSync = true) (hr : w.readFails = false)
    (hprior : objGet w.files s.syncFilePath = some (Text.json (Json.obj l)) ∨
      (objGet w.files s.syncFilePath = none ∧ l = [])) :
    upsertFoldStateForFile s w p value
      = upsertApply s w p value (Json.obj l) := by
  unfold upsertFoldStateForFile
  rcases hprior with h | ⟨h, hl⟩
  · simp [hen, h, hr, decode]
  · subst hl
    simp [hen, h]

/-- C4: `upsertFoldStateForFile` with a parseable non-null value maps the
path to the parsed descriptor and leaves every other entry of the prior
record (an absent file read as the empty record) unchanged; with `null` it
removes the path's entry and leaves every other entry unchanged; in both
cases the resulting record is encoded and written back to the durable
file. -/
theorem c4_upsert_correct (s : Settings) (w : World) (p : String) (v : Json)
    (l : List (String × Json))
    (hen : s.enableSync = true) (hr : w.readFails = false)
    (hw : w.writeFails = false)
    (hprior : objGet w.files s.syncFilePath = some (Text.json (Json.obj l)) ∨
      (objGet w.files s.syncFilePath = none ∧ l = [])) :
    (objGet (upsertFoldStateForFile s w p (some (Text.json v))).1.files
        s.syncFilePath = some (Text.json (Json.obj (objSet l p v))) ∧
     objGet (objSet l p v) p = some v ∧
     (∀ q, q ≠ p → objGet (objSet l p v) q = objGet l q) ∧
     (upsertFoldStateForFile s w p (some (Text.json v))).2.writes
       = [(s.syncFilePath, Text.json (Json.obj (objSet l p v)))]) ∧
    (objGet (upsertFoldStateForFile s w p none).1.files s.syncFilePath
       = some (Text.json (Json.obj (objDelete l p))) ∧
     objGet (objDelete l p) p = none ∧
     (∀ q, q ≠ p → objGet (objDelete l p) q = objGet l q) ∧
     (upsertFoldStateForFile s w p none).2.writes
       = [(s.syncFilePath, Text.json (Json.obj (objDelete l p)))]) := by
  constructor
  · rw [upsert_run s w p (some (Text.json v)) l hen hr hprior]
    simp only [upsertApply, decode, jsonSet, upsertWriteBack, hw,
               Bool.false_eq_true, if_false]
    exact ⟨objGet_objSet_self _ _ _, objGet_objSet_self _ _ _,
           fun q hq => objGet_objSet_ne _ _ _ _ hq, trivial⟩
  · rw [upsert_run s w p none l hen hr hprior]
    simp only [upsertApply, jsonDelete, upsertWriteBack, hw,
               Bool.false_eq_true, if_false]
    exact ⟨objGet_objSet_self _ _ _, objGet_objDelete_self _ _,
           fun q hq => objGet_objDelete_ne _ _ _ hq, trivial⟩

/-- Witness for C4 over the spec's own example: record `{"a.md": …}` plus
upsert of `b.md` keeps `a.md` and adds `b.md`; upsert of `(a.md, null)`
removes `a.md`. -/
theorem c4_upsert_correct_witness :
    objGet (upsertFoldStateForFile ⟨"s.json", true⟩
        ⟨[], [("s.json", Text.json (Json.obj [("a.md", sampleDesc)]))],
         false, false⟩
        "b.md" (some (Text.json (Json.obj [("folds", Json.arr []),
                                           ("lines", Json.num 5)])))).1.files
      "s.json"
      = some (Text.json (Json.obj
          [("a.md", sampleDesc),
           ("b.md", Json.obj [("folds", Json.arr []),
                              ("lines", Json.num 5)])])) ∧
    objGet (upsertFoldStateForFile ⟨"s.json", true⟩
        ⟨[], [("s.json", Text.json (Json.obj [("a.md", sampleDesc)]))],
         false, false⟩
        "a.md" none).1.files "s.json"
      = some (Text.json (Json.obj [])) := by
  have h := c4_upsert_correct ⟨"s.json", true⟩
    ⟨[], [("s.json", Text.json (Json.obj [("a.md", sampleDesc)]))],
     false, false⟩
    "b.md" (Json.obj [("folds", Json.arr []), ("lines", Json.num 5)])
    [("a.md", sampleDesc)] rfl rfl rfl (Or.inl rfl)
  have h2 := c4_upsert_correct ⟨"s.json", true⟩
    ⟨[], [("s.json", Text.json (Json.obj [("a.md", sampleDesc)]))],
     false, false⟩
    "a.md" (Json.obj []) [("a.md", sampleDesc)] rfl rfl rfl (Or.inl rfl)
  exact ⟨h.1.1, h2.2.1⟩

/-- C7 counterexample: decode is `JSON.parse` with no shape validation
(the TypeScript `FoldStateData` ascription is erased at runtime), so
`{"a.md": 42}` — valid JSON that is *not* a path → FoldDescriptor mapping —
decodes successfully, refuting the claim that decode fails on every input
not shaped as such a mapping. -/
theorem c7_decode_counterexample :
    decode (Text.json (Json.obj [("a.md", Json.num 42)]))
      = some (Json.obj [("a.md", Json.num 42)]) ∧
    isFoldRecordJson (Json.obj [("a.md", Json.num 42)]) = false :=
  ⟨rfl, rfl⟩

/-- C7 amended: decode fails with a `MalformedRecord` error for every input
text that is not valid JSON, and only for such text; whenever decode
succeeds, its result is the text's parsed JSON value, which need not be
shaped as a path → FoldDescriptor mapping (no shape validation is
performed). -/
theorem c7_decode_error_iff_invalid_json (t : Text) :
    (decode t = none ↔ (t = Text.empty ∨ t = Text.invalid)) ∧
    ∀ j, decode (Text.json j) = some j := by
  refine ⟨?_, fun j => rfl⟩
  cases t <;> simp [decode]

/-- Witness for C7's amended claim: both non-JSON texts fail, and the
non-fold-record JSON text `{"a.md": 42}` decodes to its parsed value. -/
theorem c7_decode_error_iff_invalid_json_witness :
    decode Text.invalid = none ∧ decode Text.empty = none ∧
    decode (Text.json (Json.obj [("a.md", Json.num 42)]))
      = some (Json.obj [("a.md", Json.num 42)]) :=
  ⟨(c7_decode_error_iff_invalid_json Text.invalid).1.mpr (Or.inr rfl),
   (c7_decode_error_iff_invalid_json Text.empty).1.mpr (Or.inl rfl),
   (c7_decode_error_iff_invalid_json
      (Text.json (Json.obj [("a.md", Json.num 42)]))).2
     (Json.obj [("a.md", Json.num 42)])⟩

theorem key_unique {α : Type} {store : List (String × α)}
    (hnd : (store.map Prod.fst).Nodup) {k : String} {a b : α}
    (ha : (k, a) ∈ store) (hb : (k, b) ∈ store) : a = b := by
  induction store with
  | nil => simp at ha
  | cons kv rest ih =>
      simp only [List.map_cons, List.nodup_cons] at hnd
      rcases List.mem_cons.mp ha with h1 | h1 <;>
        rcases List.mem_cons.mp hb with h2 | h2
      · exact congrArg Prod.snd (h1.trans h2.symm)
      · refine absurd ?_ hnd.1
        have h2' : k ∈ rest.map Prod.fst := List.mem_map_of_mem Prod.fst h2
        have hk : k = kv.1 := congrArg Prod.fst h1
        exact hk ▸ h2'
      · refine absurd ?_ hnd.1
        have h1' : k ∈ rest.map Prod.fst := List.mem_map_of_mem Prod.fst h1
        have hk : k = kv.1 := congrArg Prod.fst h2
        exact hk ▸ h1'
      · exact ih hnd.2 h1 h2

/-- C8 counterexample: the export scan skips a store value only when
`JSON.parse` throws; it does not validate the descriptor shape.  The value
`42` fails to parse *as a FoldDescriptor* but is valid JSON, so — contrary
to the claim — it is neither skipped nor logged: it appears in the written
record. -/
theorem c8_export_counterexample :
    isDescriptorJson (Json.num 42) = false ∧
    objGet (exportFoldsToFile "app" ⟨"s.json", true⟩
        ⟨[("app-note-fold-x.md", Text.json (Json.num 42))], [],
         false, false⟩).1.files "s.json"
      = some (Text.json (Json.obj [("x.md", Json.num 42)])) ∧
    (exportFoldsToFile "app" ⟨"s.json", true⟩
        ⟨[("app-note-fold-x.md", Text.json (Json.num 42))], [],
         false, false⟩).2.errLogs = 0 :=
  ⟨rfl, rfl, rfl⟩

/-- C8 amended: during `exportFoldsToFile`, a fold-namespaced store entry
whose (non-empty) value is not valid JSON is skipped and logged as an error
and never aborts the export; a fold-namespaced entry whose value is valid
JSON is included under its stripped path whatever its shape; the count of
logged errors is exactly the number of invalid-JSON fold-namespaced
entries, and the built record is what gets written. -/
theorem c8_export_skips_only_invalid_json (appId : String) (s : Settings)
    (w : World) (hen : s.enableSync = true) (hw : w.writeFails = false)
    (hnd : (w.store.map Prod.fst).Nodup) :
    (exportFoldsToFile appId s w).2.caught = false ∧
    (exportFoldsToFile appId s w).2.notices = 0 ∧
    (exportFoldsToFile appId s w).2.errLogs
      = (w.store.filter (fun kv =>
          (foldKeySuffix (foldPre appId) kv.1).isSome
            && isInvalidText kv.2)).length ∧
    objGet (exportFoldsToFile appId s w).1.files s.syncFilePath
      = some (Text.json
          (Json.obj (exportScan (foldPre appId) ([], 0) w.store).1)) ∧
    (∀ p v, (foldPre appId ++ p, Text.json v) ∈ w.store →
      objGet (exportScan (foldPre appId) ([], 0) w.store).1 p = some v) ∧
    (∀ p t, (foldPre appId ++ p, t) ∈ w.store →
      (∀ v, t ≠ Text.json v) →
      objGet (exportScan (foldPre appId) ([], 0) w.store).1 p = none) := by
  have hrun : exportFoldsToFile appId s w
      = ({ w with files := objSet w.files s.syncFilePath (Text.json (Json.obj (exportScan (foldPre appId) ([], 0) w.store).1)) },
         { noEffects with errLogs := (exportScan (foldPre appId) ([], 0) w.store).2, writes := [(s.syncFilePath, Text.json (Json.obj (exportScan (foldPre appId) ([], 0) w.store).1))] }) := by
    unfold exportFoldsToFile
    simp [hen, hw]
  refine ⟨by rw [hrun]; rfl, by rw [hrun]; rfl, ?_, ?_, ?_, ?_⟩
  · rw [hrun]
    show (exportScan (foldPre appId) ([], 0) w.store).2 = _
    rw [exportScan_snd]
    omega
  · rw [hrun]
    exact objGet_objSet_self _ _ _
  · intro p v hmem
    exact exportScan_get_found (foldPre appId) w.store [] 0 p v hnd hmem
  · intro p t hmem hnj
    rw [exportScan_get_skip (foldPre appId) w.store [] 0 p ?h]
    · rfl
    case h =>
      intro kv hkv hsuf v hv
      have hk : kv.1 = foldPre appId ++ p := foldKeySuffix_eq_some hsuf
      have hkv' : (foldPre appId ++ p, Text.json v) ∈ w.store := by
        rw [← hk]
        rw [show (kv.1, Text.json v) = kv from by rw [← hv]]
        exact hkv
      exact hnj v (key_unique hnd hmem hkv')

/-- Witness for C8's amended claim at the claim's own scale: ten
fold-namespaced entries, one with an invalid-JSON value — the export logs
exactly one error, the written record lacks the invalid entry and contains
the other nine. -/
theorem c8_export_skips_only_invalid_json_witness :
    (exportFoldsToFile "app" ⟨"s.json", true⟩
        ⟨[("app-note-fold-a1.md", Text.json sampleDesc),
          ("app-note-fold-a2.md", Text.json sampleDesc),
          ("app-note-fold-a3.md", Text.json sampleDesc),
          ("app-note-fold-a4.md", Text.json sampleDesc),
          ("app-note-fold-bad.md", Text.invalid),
          ("app-note-fold-a5.md", Text.json sampleDesc),
          ("app-note-fold-a6.md", Text.json sampleDesc),
          ("app-note-fold-a7.md", Text.json sampleDesc),
          ("app-note-fold-a8.md", Text.json sampleDesc),
          ("app-note-fold-a9.md", Text.json sampleDesc)], [],
         false, false⟩).2.errLogs = 1 ∧
    objGet (exportScan (foldPre "app") ([], 0)
        [("app-note-fold-a1.md", Text.json sampleDesc),
         ("app-note-fold-a2.md", Text.json sampleDesc),
         ("app-note-fold-a3.md", Text.json sampleDesc),
         ("app-note-fold-a4.md", Text.json sampleDesc),
         ("app-note-fold-bad.md", Text.invalid),
         ("app-note-fold-a5.md", Text.json sampleDesc),
         ("app-note-fold-a6.md", Text.json sampleDesc),
         ("app-note-fold-a7.md", Text.json sampleDesc),
         ("app-note-fold-a8.md", Text.json sampleDesc),
         ("app-note-fold-a9.md", Text.json sampleDesc)]).1 "bad.md"
      = none ∧
    objGet (exportScan (foldPre "app") ([], 0)
        [("app-note-fold-a1.md", Text.json sampleDesc),
         ("app-note-fold-a2.md", Text.json sampleDesc),
         ("app-note-fold-a3.md", Text.json sampleDesc),
         ("app-note-fold-a4.md", Text.json sampleDesc),
         ("app-note-fold-bad.md", Text.invalid),
         ("app-note-fold-a5.md", Text.json sampleDesc),
         ("app-note-fold-a6.md", Text.json sampleDesc),
         ("app-note-fold-a7.md", Text.json sampleDesc),
         ("app-note-fold-a8.md", Text.json sampleDesc),
         ("app-note-fold-a9.md", Text.json sampleDesc)]).1 "a1.md"
      = some sampleDesc ∧
    objGet (exportScan (foldPre "app") ([], 0)
        [("app-note-fold-a1.md", Text.json sampleDesc),
         ("app-note-fold-a2.md", Text.json sampleDesc),
         ("app-note-fold-a3.md", Text.json sampleDesc),
         ("app-note-fold-a4.md", Text.json sampleDesc),
         ("app-note-fold-bad.md", Text.invalid),
         ("app-note-fold-a5.md", Text.json sampleDesc),
         ("app-note-fold-a6.md", Text.json sampleDesc),
         ("app-note-fold-a7.md", Text.json sampleDesc),
         ("app-note-fold-a8.md", Text.json sampleDesc),
         ("app-note-fold-a9.md", Text.json sampleDesc)]).1 "a9.md"
      = some sampleDesc := by
  have h := c8_export_skips_only_invalid_json "app" ⟨"s.json", true⟩
    ⟨[("app-note-fold-a1.md", Text.json sampleDesc),
      ("app-note-fold-a2.md", Text.json sampleDesc),
      ("app-note-fold-a3.md", Text.json sampleDesc),
      ("app-note-fold-a4.md", Text.json sampleDesc),
      ("app-note-fold-bad.md", Text.invalid),
      ("app-note-fold-a5.md", Text.json sampleDesc),
      ("app-note-fold-a6.md", Text.json sampleDesc),
      ("app-note-fold-a7.md", Text.json sampleDesc),
      ("app-note-fold-a8.md", Text.json sampleDesc),
      ("app-note-fold-a9.md", Text.json sampleDesc)], [],
     false, false⟩ rfl rfl (by decide)
  refine ⟨by rw [h.2.2.1]; rfl, ?_, ?_, ?_⟩
  · exact h.2.2.2.2.2 "bad.md" Text.invalid
      (List.mem_cons_of_mem _ (List.mem_cons_of_mem _
        (List.mem_cons_of_mem _ (List.mem_cons_of_mem _
          (List.mem_cons_self _ _)))))
      (fun v hv => Text.noConfusion hv)
  · exact h.2.2.2.2.1 "a1.md" sampleDesc (List.mem_cons_self _ _)
  · exact h.2.2.2.2.1 "a9.md" sampleDesc
      (List.mem_cons_of_mem _ (List.mem_cons_of_mem _
        (List.mem_cons_of_mem _ (List.mem_cons_of_mem _
          (List.mem_cons_of_mem _ (List.mem_cons_of_mem _
            (List.mem_cons_of_mem _ (List.mem_cons_of_mem _
              (List.mem_cons_of_mem _ (List.mem_cons_self _ _))))))))))

/-- C9: the fold-record codec round-trips.  Decoding the encoding of any
in-memory `FoldStateData` succeeds and yields that record back, and for any
text that is a valid fold record (a parsed value the typed reader accepts),
re-encoding the decoded record is structurally equal to the text's parsed
value. -/
theorem c9_codec_round_trip :
    (∀ d : FoldStateData,
      decode (encodeFoldStateData d) = some (foldStateDataToJson d) ∧
      foldStateDataOfJson (foldStateDataToJson d) = some d) ∧
    ∀ (j : Json) (d : FoldStateData),
      foldStateDataOfJson j = some d → foldStateDataToJson d = j := by
  constructor
  · intro d
    refine ⟨rfl, ?_⟩
    simp [foldStateDataOfJson, foldStateDataToJson, entriesOfJson_map]
  · intro j d h
    cases j with
    | obj l =>
        have hinv := entriesOfJson_inv
          (show entriesOfJson l = some d by simpa [foldStateDataOfJson] using h)
        simpa [foldStateDataToJson] using congrArg Json.obj hinv
    | null => simp [foldStateDataOfJson] at h
    | bool b => simp [foldStateDataOfJson] at h
    | num n => simp [foldStateDataOfJson] at h
    | str s => simp [foldStateDataOfJson] at h
    | arr a => simp [foldStateDataOfJson] at h

/-- Witness for C9 at the record `{"a.md": {"folds":[{"from":1,"to":3}],
"lines":10}}`: both round-trip directions, evaluated. -/
theorem c9_codec_round_trip_witness :
    decode (encodeFoldStateData [("a.md", ⟨[⟨1, 3⟩], 10⟩)])
      = some (foldStateDataToJson [("a.md", ⟨[⟨1, 3⟩], 10⟩)]) ∧
    foldStateDataOfJson (foldStateDataToJson [("a.md", ⟨[⟨1, 3⟩], 10⟩)])
      = some [("a.md", ⟨[⟨1, 3⟩], 10⟩)] ∧
    foldStateDataToJson [("a.md", ⟨[⟨1, 3⟩], 10⟩)]
      = Json.obj [("a.md", sampleDesc)] := by
  have h1 := c9_codec_round_trip.1 [("a.md", ⟨[⟨1, 3⟩], 10⟩)]
  have h2 := c9_codec_round_trip.2 (Json.obj [("a.md", sampleDesc)])
    [("a.md", ⟨[⟨1, 3⟩], 10⟩)] rfl
  exact ⟨h1.1, h1.2, h2⟩

/-- C10: on activation of a path whose durable-record entry exists but which
does not resolve to a file in the vault, `applyFoldStateForFile` returns
silently (`src/main.ts:410-415`): the world — store and durable file — is
untouched and there are no effects at all (no notice, no log, no fold
application, no `foldManager` save). -/
theorem c10_apply_missing_vault_file (s : Settings) (w : World) (p : String)
    (vault : List String) (views : List View) (active : Option View)
    (j d : Json)
    (hen : s.enableSync = true)
    (hfile : objGet w.files s.syncFilePath = some (Text.json j))
    (hr : w.readFails = false)
    (hd : jsonGet j p = some (some d))
    (ht : jsTruthy d = true)
    (hv : vault.contains p = false) :
    applyFoldStateForFile s w p vault views active = (w, noEffects) := by
  unfold applyFoldStateForFile
  have hv' : p ∉ vault := by simpa using hv
  simp [hen, hfile, hr, decode, hd, ht, hv]
  exact fun hmem => absurd hmem hv'

/-- Witness for C10: record entry for `gone.md` present, vault empty — the
apply run returns the world unchanged with no effects. -/
theorem c10_apply_missing_vault_file_witness :
    applyFoldStateForFile ⟨"s.json", true⟩
        ⟨[], [("s.json", Text.json (Json.obj [("gone.md", sampleDesc)]))],
         false, false⟩ "gone.md" [] [⟨1, "gone.md"⟩] none
      = (⟨[], [("s.json", Text.json (Json.obj [("gone.md", sampleDesc)]))],
          false, false⟩, noEffects) :=
  c10_apply_missing_vault_file ⟨"s.json", true⟩
    ⟨[], [("s.json", Text.json (Json.obj [("gone.md", sampleDesc)]))],
     false, false⟩ "gone.md" [] [⟨1, "gone.md"⟩] none
    (Json.obj [("gone.md", sampleDesc)]) sampleDesc rfl rfl rfl rfl rfl rfl

end SyncFolds
